import Mathlib

/-!
Verification of the Bayesian update engine of `appsimple.py`.

The numeric core of the application — probability clamping, the
LR-to-probability-pair converter, the verbal LR category table, the
single-step Bayesian update, the evidence fold and the posterior
interpretation table — is embedded over the rationals (exact
arithmetic standing in for Python floats).  All definitions are
transcribed from the source; `*_specTable` definitions restate the
specification's wording for refinement comparisons.
-/

namespace Lambertz

/-- `EPS_PCT = 0.000001` (a percentage), source line 16. -/
def EPS_PCT : ℚ := 1 / 1000000

/-- `EPS = EPS_PCT / 100.0 = 1e-8`, source line 17. -/
def EPS : ℚ := EPS_PCT / 100

/-- `ONE_MINUS_EPS = 1.0 - EPS = 0.99999999`, source line 18. -/
def ONE_MINUS_EPS : ℚ := 1 - EPS

/-- `clamp_prob(p)`: `max(EPS, min(ONE_MINUS_EPS, float(p)))`, source lines 20-22. -/
def clamp_prob (p : ℚ) : ℚ := max EPS (min ONE_MINUS_EPS p)

/-- `lr_category(lr)`: verbal category for a likelihood ratio, source lines 47-70. -/
def lr_category (lr : ℚ) : String :=
  if lr < 1/1000 then "Extremely strong support for innocence"
  else if lr < 1/100 then "Very strong support for innocence"
  else if lr < 1/10 then "Strong support for innocence"
  else if lr < 33/100 then "Moderate support for innocence"
  else if lr < 1 then "Limited (weak) support for innocence"
  else if lr = 1 then "Neutral"
  else if lr ≤ 3 then "Limited (weak) support for guilt"
  else if lr ≤ 10 then "Moderate support for guilt"
  else if lr ≤ 30 then "Strong support for guilt"
  else if lr ≤ 100 then "Very strong support for guilt"
  else "Extremely strong support for guilt"

/-- The initial clamping of `lr` in `lr_to_prob_pair`, source line 77:
`lr = max(1e-6, min(1_000_000.0, float(lr)))`. -/
def lrClamped (lr : ℚ) : ℚ := max (1/1000000) (min 1000000 lr)

/-- The feasible lower bound for `pbna` in `lr_to_prob_pair`, source line 78:
`lower = max(EPS, EPS / lr)`. -/
def lrLower (lr : ℚ) : ℚ := max EPS (EPS / lr)

/-- The feasible upper bound for `pbna` in `lr_to_prob_pair`, source lines 79-82:
`min(ONE_MINUS_EPS, ONE_MINUS_EPS / lr)` when `lr >= 1.0`, else `ONE_MINUS_EPS`. -/
def lrUpper (lr : ℚ) : ℚ :=
  if 1 ≤ lr then min ONE_MINUS_EPS (ONE_MINUS_EPS / lr) else ONE_MINUS_EPS

/-- `lr_to_prob_pair(lr)`, source lines 72-88: produce `(pba, pbna)` with
ratio `lr`, both inside the safe interval. -/
def lr_to_prob_pair (lr0 : ℚ) : ℚ × ℚ :=
  let lr := lrClamped lr0
  let lower := lrLower lr
  let upper := lrUpper lr
  let pbna := if lower > upper then 1/2 else (lower + upper) / 2
  let pba := lr * pbna
  (clamp_prob pba, clamp_prob pbna)

/-- `bayes_step(prior, pba, pbna)`, source lines 360-363:
`numerator / denominator if denominator != 0 else 0`. -/
def bayes_step (prior pba pbna : ℚ) : ℚ :=
  let numerator := pba * prior
  let denominator := numerator + pbna * (1 - prior)
  if denominator ≠ 0 then numerator / denominator else 0

/-- One evidence row (`bevisdata` / `motbevisdata` record): description and
the two conditional probabilities `pba = P(B|Skuld)`, `pbna = P(B|Oskuld)`. -/
structure EvidenceItem where
  desc : String
  pba : ℚ
  pbna : ℚ
deriving DecidableEq

/-- One pass of the update loop body, source lines 367-369 / 377-379:
`posterior = bayes_step(old_post, row["pba"], row["pbna"])`. -/
def stepItem (p : ℚ) (e : EvidenceItem) : ℚ := bayes_step p e.pba e.pbna

/-- The final posterior of the update loop, source lines 365-386: fold
`bayes_step` over the rows, starting from the prior. -/
def runPosterior (prior : ℚ) (items : List EvidenceItem) : ℚ :=
  items.foldl stepItem prior

/-- The posterior trajectory of the update loop (the prior followed by every
intermediate `Ny %` value recorded in `result_tab`), source lines 365-386. -/
def posteriorTrace (prior : ℚ) (items : List EvidenceItem) : List ℚ :=
  List.scanl stepItem prior items

/-- `interpret(pct)`, source lines 390-402: verbal conclusion for a final
posterior percentage. -/
def interpret (pct : ℚ) : String :=
  if pct ≥ 95 then "Bortom rimligt tvivel"
  else if pct ≥ 80 then "Starkt stöd för skuld"
  else if pct ≥ 60 then "Huvudsakligen styrkt"
  else if pct ≥ 50 then "Bevisövervikt"
  else if pct ≥ 30 then "Tveksamt"
  else "Osannolikt eller stöd för oskuld"

/-- Odds of a probability, `p / (1-p)`; analysis tool for the permutation
invariance of the fold. -/
def oddsOf (p : ℚ) : ℚ := p / (1 - p)

/-- Inverse of `oddsOf` on (0,1): probability with odds `o`. -/
def fromOdds (o : ℚ) : ℚ := o / (1 + o)

/-- Likelihood ratio carried by one evidence row. -/
def lrOf (e : EvidenceItem) : ℚ := e.pba / e.pbna

/-- A concrete supporting evidence row used in witnesses. -/
def itemA : EvidenceItem := ⟨"A", 3/4, 1/4⟩

/-- A concrete counter-evidence row used in witnesses. -/
def itemB : EvidenceItem := ⟨"B", 1/3, 2/3⟩

/-- A concrete evidence row with one nonnegative probability, used in
witnesses. -/
def itemC : EvidenceItem := ⟨"C", 1/2, 1/4⟩

/-- C1: `bayes_step` returns `(pba*prior) / (pba*prior + pbna*(1-prior))` when
that denominator is nonzero, and `0` (without raising) when it is zero. -/
theorem bayes_step_value (prior pba pbna : ℚ) :
    (pba * prior + pbna * (1 - prior) ≠ 0 →
      bayes_step prior pba pbna =
        pba * prior / (pba * prior + pbna * (1 - prior))) ∧
    (pba * prior + pbna * (1 - prior) = 0 → bayes_step prior pba pbna = 0) := by
  constructor
  · intro h
    simp only [bayes_step]
    rw [if_pos h]
  · intro h
    simp only [bayes_step]
    rw [if_neg (by simpa using h)]

/-- Witness for C1 at concrete inputs: a nonzero denominator and a zero one. -/
theorem bayes_step_value_witness :
    bayes_step (1/2) (3/4) (1/4) = (3/4 * (1/2)) / (3/4 * (1/2) + 1/4 * (1 - 1/2)) ∧
    bayes_step (1/2) 0 0 = 0 := by
  constructor
  · exact (bayes_step_value (1/2) (3/4) (1/4)).1 (by norm_num)
  · exact (bayes_step_value (1/2) 0 0).2 (by norm_num)

/-- C4: a neutral evidence step is the identity: `bayes_step(p, x, x) = p`
for every `p` and every `x ≠ 0`. -/
theorem bayes_step_neutral (p x : ℚ) (hx : x ≠ 0) : bayes_step p x x = p := by
  simp only [bayes_step]
  have hden : x * p + x * (1 - p) = x := by ring
  rw [hden, if_pos hx]
  field_simp

/-- Witness for C4: a neutral step at `p = 5` (any `p`, even outside [0,1]). -/
theorem bayes_step_neutral_witness : bayes_step 5 (1/4) (1/4) = 5 :=
  bayes_step_neutral 5 (1/4) (by norm_num)

/-- `clamp_prob` lands in the safe interval. -/
theorem clamp_prob_mem (p : ℚ) :
    EPS ≤ clamp_prob p ∧ clamp_prob p ≤ ONE_MINUS_EPS := by
  have hlt : EPS ≤ ONE_MINUS_EPS := by norm_num [EPS, EPS_PCT, ONE_MINUS_EPS]
  exact ⟨le_max_left _ _, max_le hlt (min_le_left _ _)⟩

/-- `clamp_prob` is the identity on the safe interval. -/
theorem clamp_prob_eq_self (p : ℚ) (h1 : EPS ≤ p) (h2 : p ≤ ONE_MINUS_EPS) :
    clamp_prob p = p := by
  simp only [clamp_prob]
  rw [min_eq_right h2, max_eq_right h1]

/-- C6: `clamp_prob` always lands in `[1e-8, 1 - 1e-8]`, and is the identity
on inputs already in that interval. -/
theorem clamp_prob_spec (p : ℚ) :
    (EPS ≤ clamp_prob p ∧ clamp_prob p ≤ ONE_MINUS_EPS) ∧
    (EPS ≤ p → p ≤ ONE_MINUS_EPS → clamp_prob p = p) :=
  ⟨clamp_prob_mem p, clamp_prob_eq_self p⟩

/-- Witness for C6 at `p = 1/2`: inside the safe interval, `clamp_prob` is
the identity and its output is in bounds. -/
theorem clamp_prob_spec_witness :
    (EPS ≤ clamp_prob (1/2) ∧ clamp_prob (1/2) ≤ ONE_MINUS_EPS) ∧
    clamp_prob (1/2) = 1/2 := by
  refine ⟨(clamp_prob_spec (1/2)).1, ?_⟩
  exact (clamp_prob_spec (1/2)).2 (by norm_num [EPS, EPS_PCT])
    (by norm_num [ONE_MINUS_EPS, EPS, EPS_PCT])

/-- The specification's reading of the LR category table (§4.3): eleven
ordered categories, boundaries 0.001, 0.01, 0.1, 0.33 strict below, Neutral
exactly at 1.0, and 3, 10, 30, 100 inclusive above.  The Neutral test is
placed first here (the spec singles it out), unlike the source's chain. -/
def lr_categorySpecTable (lr : ℚ) : String :=
  if lr = 1 then "Neutral"
  else if lr < 1/1000 then "Extremely strong support for innocence"
  else if lr < 1/100 then "Very strong support for innocence"
  else if lr < 1/10 then "Strong support for innocence"
  else if lr < 33/100 then "Moderate support for innocence"
  else if lr < 1 then "Limited (weak) support for innocence"
  else if lr ≤ 3 then "Limited (weak) support for guilt"
  else if lr ≤ 10 then "Moderate support for guilt"
  else if lr ≤ 30 then "Strong support for guilt"
  else if lr ≤ 100 then "Very strong support for guilt"
  else "Extremely strong support for guilt"

set_option maxHeartbeats 1000000 in
/-- C7: `lr_category` realizes the specification's eleven-category table with
the coded half-open/closed boundary asymmetry, and takes the three quoted
values at `1.0`, `50` and `0.005`. -/
theorem lr_category_spec :
    (∀ lr : ℚ, lr_category lr = lr_categorySpecTable lr) ∧
    lr_category 1 = "Neutral" ∧
    lr_category 50 = "Very strong support for guilt" ∧
    lr_category (5/1000) = "Very strong support for innocence" := by
  refine ⟨?_, by norm_num [lr_category], by norm_num [lr_category],
    by norm_num [lr_category]⟩
  intro lr
  simp only [lr_category, lr_categorySpecTable]
  split_ifs <;> first | rfl | linarith

/-- The specification's reading of the posterior interpretation table (§4.5):
six ordered categories with thresholds closed on the low side, written with
explicit two-sided interval guards. -/
def interpretSpecTable (pct : ℚ) : String :=
  if 95 ≤ pct then "Bortom rimligt tvivel"
  else if 80 ≤ pct ∧ pct < 95 then "Starkt stöd för skuld"
  else if 60 ≤ pct ∧ pct < 80 then "Huvudsakligen styrkt"
  else if 50 ≤ pct ∧ pct < 60 then "Bevisövervikt"
  else if 30 ≤ pct ∧ pct < 50 then "Tveksamt"
  else "Osannolikt eller stöd för oskuld"

/-- C8: `interpret` realizes the specification's six-category table with
thresholds closed on the low side (`≥95`, `≥80`, `≥60`, `≥50`, `≥30`, else);
the source's category strings are the Swedish originals of the spec's
English names. -/
theorem interpret_spec : ∀ pct : ℚ, interpret pct = interpretSpecTable pct := by
  intro pct
  simp only [interpret, interpretSpecTable, ge_iff_le]
  split_ifs <;>
    first
      | rfl
      | linarith
      | (exfalso; simp_all only [not_and, not_lt, not_le]; first | linarith | tauto)

/-- After clamping into `[1e-6, 1e6]`, the feasible range for `pbna` is
never empty. -/
theorem lrLower_le_lrUpper (lr : ℚ) (h1 : 1/1000000 ≤ lr)
    (h2 : lr ≤ 1000000) : lrLower lr ≤ lrUpper lr := by
  have hpos : (0 : ℚ) < lr := lt_of_lt_of_le (by norm_num) h1
  simp only [lrLower, lrUpper, EPS, EPS_PCT, ONE_MINUS_EPS]
  by_cases hge : (1 : ℚ) ≤ lr
  · rw [if_pos hge]
    apply max_le
    · apply le_min
      · norm_num
      · rw [le_div_iff hpos]; linarith
    · apply le_min
      · rw [div_le_iff hpos]; linarith
      · gcongr
        norm_num
  · rw [if_neg hge]
    push_neg at hge
    apply max_le
    · norm_num
    · rw [div_le_iff hpos]; nlinarith

/-- C9: in `lr_to_prob_pair`, after the initial clamping of `lr` the computed
lower bound never exceeds the upper bound, so the infeasibility fallback
`pbna = 0.5` is unreachable: the result always uses the midpoint. -/
theorem lr_to_prob_pair_no_fallback (lr : ℚ) :
    lrLower (lrClamped lr) ≤ lrUpper (lrClamped lr) ∧
    (lr_to_prob_pair lr).2 =
      clamp_prob ((lrLower (lrClamped lr) + lrUpper (lrClamped lr)) / 2) := by
  have h1 : 1/1000000 ≤ lrClamped lr := le_max_left _ _
  have h2 : lrClamped lr ≤ 1000000 := max_le (by norm_num) (min_le_left _ _)
  have hle := lrLower_le_lrUpper (lrClamped lr) h1 h2
  refine ⟨hle, ?_⟩
  simp only [lr_to_prob_pair]
  rw [if_neg (not_lt.mpr hle)]

/-- C2: inside the safe interval, `bayes_step` moves the posterior in the
direction of the stronger conditional probability: up when `pba > pbna`,
down when `pba < pbna`, unchanged when they are equal. -/
theorem bayes_step_monotone (p a b : ℚ) (hp0 : 0 < p) (hp1 : p < 1)
    (ha0 : EPS ≤ a) (ha1 : a ≤ ONE_MINUS_EPS)
    (hb0 : EPS ≤ b) (hb1 : b ≤ ONE_MINUS_EPS) :
    (b < a → p < bayes_step p a b) ∧
    (a < b → bayes_step p a b < p) ∧
    (a = b → bayes_step p a b = p) := by
  have hEa : (0:ℚ) < a := lt_of_lt_of_le (by norm_num [EPS, EPS_PCT]) ha0
  have hEb : (0:ℚ) < b := lt_of_lt_of_le (by norm_num [EPS, EPS_PCT]) hb0
  have hD : (0:ℚ) < a * p + b * (1 - p) := by nlinarith
  have hstep : bayes_step p a b = a * p / (a * p + b * (1 - p)) := by
    simp only [bayes_step]
    rw [if_pos hD.ne']
  refine ⟨?_, ?_, ?_⟩
  · intro hab
    rw [hstep, lt_div_iff hD]
    nlinarith [mul_pos (mul_pos hp0 (show (0:ℚ) < 1 - p by linarith))
      (sub_pos.mpr hab)]
  · intro hab
    rw [hstep, div_lt_iff hD]
    nlinarith [mul_pos (mul_pos hp0 (show (0:ℚ) < 1 - p by linarith))
      (sub_pos.mpr hab)]
  · intro hab
    rw [hstep, ← hab, show a * p + a * (1 - p) = a from by ring]
    field_simp

/-- Witness for C2 at `p = 1/2`, `a = 3/4`, `b = 1/4` (and the symmetric and
equal cases instantiated alongside). -/
theorem bayes_step_monotone_witness :
    ((1:ℚ)/4 < 3/4 → (1:ℚ)/2 < bayes_step (1/2) (3/4) (1/4)) ∧
    ((3:ℚ)/4 < 1/4 → bayes_step (1/2) (3/4) (1/4) < 1/2) ∧
    ((3:ℚ)/4 = 1/4 → bayes_step (1/2) (3/4) (1/4) = 1/2) :=
  bayes_step_monotone (1/2) (3/4) (1/4) (by norm_num) (by norm_num)
    (by norm_num [EPS, EPS_PCT]) (by norm_num [ONE_MINUS_EPS, EPS, EPS_PCT])
    (by norm_num [EPS, EPS_PCT]) (by norm_num [ONE_MINUS_EPS, EPS, EPS_PCT])

/-- C5: for `lr` already in `[1e-6, 1e6]`, `lr_to_prob_pair` returns a pair
whose ratio is exactly `lr` and whose components both lie in the safe
interval.  (Determinism is immediate: it is a pure function of `lr`.) -/
theorem lr_to_prob_pair_spec (lr : ℚ) (h1 : 1/1000000 ≤ lr)
    (h2 : lr ≤ 1000000) :
    (lr_to_prob_pair lr).1 / (lr_to_prob_pair lr).2 = lr ∧
    EPS ≤ (lr_to_prob_pair lr).1 ∧ (lr_to_prob_pair lr).1 ≤ ONE_MINUS_EPS ∧
    EPS ≤ (lr_to_prob_pair lr).2 ∧ (lr_to_prob_pair lr).2 ≤ ONE_MINUS_EPS := by
  have hpos : (0:ℚ) < lr := lt_of_lt_of_le (by norm_num) h1
  have hcl : lrClamped lr = lr := by
    simp only [lrClamped]
    rw [min_eq_right h2, max_eq_right h1]
  have hle : lrLower lr ≤ lrUpper lr := lrLower_le_lrUpper lr h1 h2
  have hL : EPS ≤ lrLower lr := le_max_left _ _
  have hU : lrUpper lr ≤ ONE_MINUS_EPS := by
    simp only [lrUpper]
    split_ifs
    · exact min_le_left _ _
    · exact le_refl _
  have hpair : lr_to_prob_pair lr =
      (clamp_prob (lr * ((lrLower lr + lrUpper lr) / 2)),
       clamp_prob ((lrLower lr + lrUpper lr) / 2)) := by
    simp only [lr_to_prob_pair, hcl]
    rw [if_neg (not_lt.mpr hle)]
  have hpbna0 : EPS ≤ (lrLower lr + lrUpper lr) / 2 ∧
      (lrLower lr + lrUpper lr) / 2 ≤ ONE_MINUS_EPS :=
    ⟨by linarith, by linarith⟩
  have hpba0 : EPS ≤ lr * ((lrLower lr + lrUpper lr) / 2) ∧
      lr * ((lrLower lr + lrUpper lr) / 2) ≤ ONE_MINUS_EPS := by
    by_cases hge : (1:ℚ) ≤ lr
    · have hlow : lrLower lr = EPS :=
        max_eq_left (div_le_self (by norm_num [EPS, EPS_PCT]) hge)
      have hup : lrUpper lr = ONE_MINUS_EPS / lr := by
        simp only [lrUpper]
        rw [if_pos hge,
          min_eq_right (div_le_self (by norm_num [ONE_MINUS_EPS, EPS, EPS_PCT]) hge)]
      have hval : lr * ((lrLower lr + lrUpper lr) / 2) =
          (lr * EPS + ONE_MINUS_EPS) / 2 := by
        rw [hlow, hup]
        field_simp
        ring
      rw [hval]
      constructor
      · simp only [EPS, EPS_PCT, ONE_MINUS_EPS]
        nlinarith
      · simp only [EPS, EPS_PCT, ONE_MINUS_EPS]
        nlinarith
    · push_neg at hge
      have hlow : lrLower lr = EPS / lr := by
        apply max_eq_right
        rw [le_div_iff hpos]
        simp only [EPS, EPS_PCT]
        nlinarith
      have hup : lrUpper lr = ONE_MINUS_EPS := by
        simp only [lrUpper]
        rw [if_neg (not_le.mpr hge)]
      have hval : lr * ((lrLower lr + lrUpper lr) / 2) =
          (EPS + lr * ONE_MINUS_EPS) / 2 := by
        rw [hlow, hup]
        field_simp
        ring
      rw [hval]
      constructor
      · simp only [EPS, EPS_PCT, ONE_MINUS_EPS]
        nlinarith
      · simp only [EPS, EPS_PCT, ONE_MINUS_EPS]
        nlinarith
  have hpbna_ne : (lrLower lr + lrUpper lr) / 2 ≠ 0 := by
    have : (0:ℚ) < EPS := by norm_num [EPS, EPS_PCT]
    linarith [hpbna0.1]
  rw [hpair]
  simp only
  rw [clamp_prob_eq_self _ hpba0.1 hpba0.2, clamp_prob_eq_self _ hpbna0.1 hpbna0.2]
  refine ⟨?_, hpba0.1, hpba0.2, hpbna0.1, hpbna0.2⟩
  rw [mul_div_assoc, div_self hpbna_ne, mul_one]

/-- Witness for C5 at `lr = 2`. -/
theorem lr_to_prob_pair_spec_witness :
    (lr_to_prob_pair 2).1 / (lr_to_prob_pair 2).2 = 2 ∧
    EPS ≤ (lr_to_prob_pair 2).1 ∧ (lr_to_prob_pair 2).1 ≤ ONE_MINUS_EPS ∧
    EPS ≤ (lr_to_prob_pair 2).2 ∧ (lr_to_prob_pair 2).2 ≤ ONE_MINUS_EPS :=
  lr_to_prob_pair_spec 2 (by norm_num) (by norm_num)

/-- With a prior strictly inside (0,1) and positive conditional
probabilities, one update step stays strictly inside (0,1). -/
theorem bayes_step_Ioo (p a b : ℚ) (hp0 : 0 < p) (hp1 : p < 1)
    (ha : 0 < a) (hb : 0 < b) :
    0 < bayes_step p a b ∧ bayes_step p a b < 1 := by
  have hD : (0:ℚ) < a * p + b * (1 - p) := by nlinarith
  simp only [bayes_step]
  rw [if_pos hD.ne']
  constructor
  · exact div_pos (by nlinarith) hD
  · rw [div_lt_one hD]
    nlinarith

/-- One update step multiplies the odds by the item's likelihood ratio. -/
theorem oddsOf_bayes_step (p a b : ℚ) (hp0 : 0 < p) (hp1 : p < 1)
    (ha : 0 < a) (hb : 0 < b) :
    oddsOf (bayes_step p a b) = a / b * oddsOf p := by
  have hD : (0:ℚ) < a * p + b * (1 - p) := by nlinarith
  have h1p : (0:ℚ) < 1 - p := by linarith
  simp only [bayes_step, oddsOf]
  rw [if_pos hD.ne']
  have key : (1:ℚ) - a * p / (a * p + b * (1 - p)) =
      b * (1 - p) / (a * p + b * (1 - p)) := by
    field_simp
  rw [key]
  have hDne : a * p + b * (1 - p) ≠ 0 := hD.ne'
  have hbne : b ≠ 0 := hb.ne'
  have h1pne : (1:ℚ) - p ≠ 0 := h1p.ne'
  field_simp

/-- `fromOdds` inverts `oddsOf` away from 1. -/
theorem fromOdds_oddsOf (p : ℚ) (hp : p ≠ 1) : fromOdds (oddsOf p) = p := by
  have h : (1:ℚ) - p ≠ 0 := sub_ne_zero.mpr (Ne.symm hp)
  simp only [fromOdds, oddsOf]
  have key : (1:ℚ) + p / (1 - p) = 1 / (1 - p) := by
    field_simp
  rw [key, one_div, div_eq_mul_inv, inv_inv, div_mul_cancel₀ _ h]

/-- The evidence fold in odds form: the final posterior is the prior's odds
multiplied by the product of the items' likelihood ratios, mapped back. -/
theorem runPosterior_eq_fromOdds (items : List EvidenceItem) (p : ℚ)
    (hp0 : 0 < p) (hp1 : p < 1)
    (hpos : ∀ e ∈ items, 0 < e.pba ∧ 0 < e.pbna) :
    runPosterior p items = fromOdds (oddsOf p * (items.map lrOf).prod) := by
  induction items generalizing p with
  | nil =>
    simp only [runPosterior, List.foldl_nil, List.map_nil, List.prod_nil, mul_one]
    exact (fromOdds_oddsOf p hp1.ne).symm
  | cons e rest ih =>
    have hmem := hpos e (List.mem_cons_self e rest)
    have hstep := bayes_step_Ioo p e.pba e.pbna hp0 hp1 hmem.1 hmem.2
    have hrest : ∀ x ∈ rest, 0 < x.pba ∧ 0 < x.pbna := fun x hx =>
      hpos x (List.mem_cons_of_mem e hx)
    have hfold : runPosterior p (e :: rest) = runPosterior (stepItem p e) rest := rfl
    rw [hfold, ih (stepItem p e) hstep.1 hstep.2 hrest]
    congr 1
    have hodds : oddsOf (stepItem p e) = lrOf e * oddsOf p :=
      oddsOf_bayes_step p e.pba e.pbna hp0 hp1 hmem.1 hmem.2
    rw [hodds, List.map_cons, List.prod_cons]
    ring

/-- C3: with a prior in (0,1) and all conditional probabilities in the safe
interval, the final posterior of the fold over the concatenated
evidence-then-counter-evidence sequence is invariant under any permutation
of that combined sequence. -/
theorem runPosterior_perm_invariant (prior : ℚ) (ev cev other : List EvidenceItem)
    (hp0 : 0 < prior) (hp1 : prior < 1)
    (hsafe : ∀ e ∈ ev ++ cev, EPS ≤ e.pba ∧ e.pba ≤ ONE_MINUS_EPS ∧
      EPS ≤ e.pbna ∧ e.pbna ≤ ONE_MINUS_EPS)
    (hperm : (ev ++ cev).Perm other) :
    runPosterior prior other = runPosterior prior (ev ++ cev) := by
  have hpos : ∀ e ∈ ev ++ cev, 0 < e.pba ∧ 0 < e.pbna := fun e he =>
    ⟨lt_of_lt_of_le (by norm_num [EPS, EPS_PCT]) (hsafe e he).1,
     lt_of_lt_of_le (by norm_num [EPS, EPS_PCT]) (hsafe e he).2.2.1⟩
  have hpos' : ∀ e ∈ other, 0 < e.pba ∧ 0 < e.pbna := fun e he =>
    hpos e (hperm.symm.subset he)
  rw [runPosterior_eq_fromOdds other prior hp0 hp1 hpos',
    runPosterior_eq_fromOdds (ev ++ cev) prior hp0 hp1 hpos]
  congr 2
  exact ((hperm.map lrOf).prod_eq).symm

/-- Witness for C3: one evidence item and one counter-evidence item, folded
in both orders from prior 1/2. -/
theorem runPosterior_perm_invariant_witness :
    runPosterior (1/2) [itemB, itemA] = runPosterior (1/2) ([itemA] ++ [itemB]) := by
  apply runPosterior_perm_invariant (1/2) [itemA] [itemB] [itemB, itemA]
    (by norm_num) (by norm_num)
  · intro e he
    simp only [List.cons_append, List.nil_append, List.mem_cons,
      List.not_mem_nil, or_false] at he
    rcases he with rfl | rfl <;>
      exact ⟨by norm_num [itemA, itemB, EPS, EPS_PCT],
        by norm_num [itemA, itemB, ONE_MINUS_EPS, EPS, EPS_PCT],
        by norm_num [itemA, itemB, EPS, EPS_PCT],
        by norm_num [itemA, itemB, ONE_MINUS_EPS, EPS, EPS_PCT]⟩
  · exact List.Perm.swap itemB itemA []

/-- With a prior in [0,1] and nonnegative conditional probabilities, one
update step stays in [0,1] (including through the division-by-zero
fallback). -/
theorem bayes_step_unit (p a b : ℚ) (hp0 : 0 ≤ p) (hp1 : p ≤ 1)
    (ha : 0 ≤ a) (hb : 0 ≤ b) :
    0 ≤ bayes_step p a b ∧ bayes_step p a b ≤ 1 := by
  simp only [bayes_step]
  split_ifs with h
  · have hD0 : (0:ℚ) ≤ a * p + b * (1 - p) := by nlinarith
    have hD : (0:ℚ) < a * p + b * (1 - p) := lt_of_le_of_ne hD0 (Ne.symm h)
    constructor
    · exact div_nonneg (by nlinarith) hD0
    · rw [div_le_one hD]
      nlinarith
  · norm_num

/-- The whole fold stays in [0,1] under the hypotheses of `bayes_step_unit`. -/
theorem runPosterior_unit (items : List EvidenceItem) (p : ℚ)
    (hp0 : 0 ≤ p) (hp1 : p ≤ 1)
    (hnn : ∀ e ∈ items, 0 ≤ e.pba ∧ 0 ≤ e.pbna) :
    0 ≤ runPosterior p items ∧ runPosterior p items ≤ 1 := by
  induction items generalizing p with
  | nil => exact ⟨hp0, hp1⟩
  | cons e rest ih =>
    have hmem := hnn e (List.mem_cons_self e rest)
    have hstep := bayes_step_unit p e.pba e.pbna hp0 hp1 hmem.1 hmem.2
    exact ih (stepItem p e) hstep.1 hstep.2
      (fun x hx => hnn x (List.mem_cons_of_mem e hx))

/-- Every entry of the recorded trajectory stays in [0,1]. -/
theorem posteriorTrace_unit (items : List EvidenceItem) (p : ℚ)
    (hp0 : 0 ≤ p) (hp1 : p ≤ 1)
    (hnn : ∀ e ∈ items, 0 ≤ e.pba ∧ 0 ≤ e.pbna) :
    ∀ q ∈ posteriorTrace p items, 0 ≤ q ∧ q ≤ 1 := by
  induction items generalizing p with
  | nil =>
    intro q hq
    simp only [posteriorTrace, List.scanl_nil, List.mem_singleton] at hq
    subst hq
    exact ⟨hp0, hp1⟩
  | cons e rest ih =>
    intro q hq
    have hmem := hnn e (List.mem_cons_self e rest)
    have hstep := bayes_step_unit p e.pba e.pbna hp0 hp1 hmem.1 hmem.2
    simp only [posteriorTrace, List.scanl_cons, List.singleton_append,
      List.nil_append, List.mem_cons] at hq
    rcases hq with rfl | hq
    · exact ⟨hp0, hp1⟩
    · exact ih (stepItem p e) hstep.1 hstep.2
        (fun x hx => hnn x (List.mem_cons_of_mem e hx)) q hq

/-- C10: from a prior in [0,1] and nonnegative conditional probabilities,
every intermediate and final posterior of the update loop remains in [0,1],
and the fold over an empty sequence returns the prior unchanged. -/
theorem posterior_in_unit_interval (prior : ℚ) (items : List EvidenceItem)
    (hp0 : 0 ≤ prior) (hp1 : prior ≤ 1)
    (hnn : ∀ e ∈ items, 0 ≤ e.pba ∧ 0 ≤ e.pbna) :
    (∀ q ∈ posteriorTrace prior items, 0 ≤ q ∧ q ≤ 1) ∧
    (0 ≤ runPosterior prior items ∧ runPosterior prior items ≤ 1) ∧
    runPosterior prior ([] : List EvidenceItem) = prior :=
  ⟨posteriorTrace_unit items prior hp0 hp1 hnn,
   runPosterior_unit items prior hp0 hp1 hnn, rfl⟩

/-- Witness for C10 with one evidence item from prior 1/2. -/
theorem posterior_in_unit_interval_witness :
    (∀ q ∈ posteriorTrace (1/2) [itemC], 0 ≤ q ∧ q ≤ 1) ∧
    (0 ≤ runPosterior (1/2) [itemC] ∧ runPosterior (1/2) [itemC] ≤ 1) ∧
    runPosterior (1/2) ([] : List EvidenceItem) = 1/2 := by
  apply posterior_in_unit_interval (1/2) [itemC] (by norm_num) (by norm_num)
  intro e he
  simp only [List.mem_singleton] at he
  subst he
  exact ⟨by norm_num [itemC], by norm_num [itemC]⟩

end Lambertz
